import Mathlib

/-!
Verification development for the NaPTAN stops ingestion pipeline
(`pipelines/buses/naptan-stops-sqlite.ts`) and its validator
(`pipelines/buses/validate-stops-sqlite.ts`).

The pure core (header lookup, row transformation, batched loading into the
staging database, statistics, validation) is embedded as executable Lean
functions.  JavaScript numbers are modelled as `JSNum` (a rational together
with NaN and the two infinities); machine floating point rounding is not
modelled, which is irrelevant to the properties proved here (finiteness,
skip decisions, dedup, counts).  The filesystem effects of the publish and
cleanup phases are embedded separately as a small step semantics (`FsState`,
`BuildStep`, `buildStopsFsRun`) with a failure-injection parameter that
mirrors the try/finally control flow of `buildStopsSqlite`.
-/

namespace NaptanStops

/-- Model of a JavaScript number as far as this pipeline observes it:
either a finite rational or one of the non-finite values. -/
inductive JSNum where
  | nan : JSNum
  | posInf : JSNum
  | negInf : JSNum
  | finite : ℚ → JSNum
deriving DecidableEq

/-- `Math.min` on the modelled numbers (used for the running bounding box). -/
def jsMin : JSNum → JSNum → JSNum
  | .nan, _ => .nan
  | _, .nan => .nan
  | .negInf, _ => .negInf
  | _, .negInf => .negInf
  | .posInf, b => b
  | a, .posInf => a
  | .finite a, .finite b => .finite (min a b)

/-- `Math.max` on the modelled numbers. -/
def jsMax : JSNum → JSNum → JSNum
  | .nan, _ => .nan
  | _, .nan => .nan
  | .posInf, _ => .posInf
  | _, .posInf => .posInf
  | .negInf, b => b
  | a, .negInf => a
  | .finite a, .finite b => .finite (max a b)

/-- Model of JavaScript string trimming (both ends).  Defined structurally
over the character list so that it computes inside the kernel; the
whitespace set is `Char.isWhitespace`, which covers the characters this
pipeline can meet. -/
def jsTrim (s : String) : String :=
  String.mk (((s.data.dropWhile Char.isWhitespace).reverse.dropWhile Char.isWhitespace).reverse)

/-- Model of JavaScript left trimming (used by `parseFloat`). -/
def jsTrimLeft (s : String) : String :=
  String.mk (s.data.dropWhile Char.isWhitespace)

/-- Model of `s.startsWith(p)` for JavaScript strings. -/
def jsStartsWith (s p : String) : Bool :=
  p.data.isPrefixOf s.data

/-- Longest run of leading decimal digits of a character list. -/
def takeDigits : List Char → List Char × List Char
  | [] => ([], [])
  | c :: rest =>
    if c.isDigit then
      let (ds, r) := takeDigits rest
      (c :: ds, r)
    else ([], c :: rest)

/-- Value of a digit string. -/
def digitsVal (ds : List Char) : Nat :=
  ds.foldl (fun acc c => acc * 10 + (c.toNat - 48)) 0

/-- Optional leading sign; `true` means negative. -/
def parseSign : List Char → Bool × List Char
  | '-' :: r => (true, r)
  | '+' :: r => (false, r)
  | l => (false, l)

/-- Optional exponent part `[eE][+-]?digits`; yields `0` when absent or
malformed (a malformed exponent is simply not part of the literal). -/
def parseExpPart (l : List Char) : Int :=
  match l with
  | c :: r =>
    if c = 'e' ∨ c = 'E' then
      let (neg, r2) := parseSign r
      let (ds, _) := takeDigits r2
      if ds.isEmpty then 0
      else if neg then -(digitsVal ds : Int) else (digitsVal ds : Int)
    else 0
  | [] => 0

/-- Model of `Number.parseFloat`: skip leading whitespace, then read the
longest decimal-literal (or signed `Infinity`) head of the string; NaN
when no literal is present.  Finite results are exact rationals. -/
def parseFloat (s : String) : JSNum :=
  let l := (jsTrimLeft s).data
  let (neg, l1) := parseSign l
  if "Infinity".data.isPrefixOf l1 then
    if neg then JSNum.negInf else JSNum.posInf
  else
    let (intDs, l2) := takeDigits l1
    let (fracDs, l3) :=
      match l2 with
      | '.' :: r => takeDigits r
      | _ => ([], l2)
    if intDs.isEmpty ∧ fracDs.isEmpty then JSNum.nan
    else
      let e := parseExpPart l3
      let mantissa : ℚ := (digitsVal intDs : ℚ) + (digitsVal fracDs : ℚ) / ((10 : ℚ) ^ fracDs.length)
      let mag : ℚ := mantissa * (10 : ℚ) ^ e
      JSNum.finite (if neg then -mag else mag)

/-- A raw CSV record as delivered by the csv parser: header/value pairs.
JavaScript object indexing is exact-string lookup (`rowLookup`). -/
abbrev RawRec := List (String × String)

/-- `row[key]` on a raw record: exact, case-sensitive key lookup. -/
def rowLookup (row : RawRec) (k : String) : Option String :=
  (row.find? (fun kv => kv.1 == k)).map (·.2)

/-- `pick(row, keys)`: first key in order whose value is a string with
nonempty trim; returns the trimmed value. -/
def pick (row : RawRec) : List String → Option String
  | [] => none
  | k :: rest =>
    match rowLookup row k with
    | some v => if (jsTrim v).length > 0 then some (jsTrim v) else pick row rest
    | none => pick row rest

/-- Header synonyms for the stop identifier. -/
def idKeys : List String := ["ATCOCode", "AtcoCode", "atcocode"]

/-- Header synonyms for the administrative-area code. -/
def areaKeys : List String :=
  ["AdministrativeAreaCode", "AdminAreaCode", "administrativeareacode"]

/-- Header synonyms for latitude. -/
def latKeys : List String := ["Latitude", "latitude", "Lat", "lat"]

/-- Header synonyms for longitude. -/
def lngKeys : List String := ["Longitude", "longitude", "Lon", "lon", "Lng", "lng"]

/-- Header synonyms for the stop name. -/
def nameKeys : List String :=
  ["CommonName", "StopName", "ShortCommonName", "Descriptor", "Name", "name"]

/-- Header synonyms for the locality name. -/
def localityKeys : List String := ["LocalityName", "Town"]

/-- Header synonyms for the stop type. -/
def stopTypeKeys : List String := ["StopType"]

/-- Header synonyms for the stop-area code. -/
def stopAreaKeys : List String := ["StopAreaCode"]

/-- Header synonyms for the indicator. -/
def indicatorKeys : List String := ["Indicator"]

/-- Header synonyms for the street. -/
def streetKeys : List String := ["Street"]

/-- Header synonyms for the bearing. -/
def bearingKeys : List String := ["Bearing"]

/-- Header synonyms for the NPTG locality code. -/
def nptgKeys : List String := ["NptgLocalityCode"]

/-- Header synonyms for the status. -/
def statusKeys : List String := ["Status"]

/-- `parseNumber(raw)`: undefined on a missing or empty string, otherwise
the parsed value provided it is finite. -/
def parseNumber (raw : Option String) : Option ℚ :=
  match raw with
  | none => none
  | some s =>
    if s = "" then none
    else
      match parseFloat s with
      | JSNum.finite q => some q
      | _ => none

/-- A normalized stop record (`StopRow` in the source). -/
structure StopRow where
  id : String
  name : String
  lat : ℚ
  lng : ℚ
  localityName : Option String
  adminAreaCode : Option String
  stopType : Option String
  stopAreaCode : Option String
  indicator : Option String
  street : Option String
  bearing : Option String
  nptgLocalityCode : Option String
  status : Option String
deriving DecidableEq

/-- The guard `atcoPrefix && !id.startsWith(atcoPrefix)` of `mapRow`: the
filter string is truthy exactly when it is nonempty. -/
def atcoBlocks (atco : Option String) (id : String) : Bool :=
  match atco with
  | none => false
  | some p => p != "" && !(jsStartsWith id p)

/-- `mapRow(row, atcoPrefix)`: resolve the id, apply the ATCO filter,
require finite coordinates, default the name to the id, and collect the
optional descriptive fields; `none` is the explicit skip decision. -/
def mapRow (row : RawRec) (atco : Option String) : Option StopRow :=
  match pick row idKeys with
  | none => none
  | some id =>
    if atcoBlocks atco id then none
    else
      let areaCode := pick row areaKeys
      match parseNumber (pick row latKeys), parseNumber (pick row lngKeys) with
      | some lat, some lng =>
        some
          { id := id
            name := (pick row nameKeys).getD id
            lat := lat
            lng := lng
            localityName := pick row localityKeys
            adminAreaCode := areaCode
            stopType := pick row stopTypeKeys
            stopAreaCode := pick row stopAreaKeys
            indicator := pick row indicatorKeys
            street := pick row streetKeys
            bearing := pick row bearingKeys
            nptgLocalityCode := pick row nptgKeys
            status := pick row statusKeys }
      | _, _ => none

/-- The kept rows of a record stream, in stream order. -/
def keptOf (records : List RawRec) (atco : Option String) : List StopRow :=
  records.filterMap (fun r => mapRow r atco)

/-- One row of the `stops_rtree` virtual table:
`(id, minX, maxX, minY, maxY)` keyed by the stop row identifier. -/
structure RtreeEntry where
  id : Nat
  minX : ℚ
  maxX : ℚ
  minY : ℚ
  maxY : ℚ
deriving DecidableEq

/-- Result of a statement run, as the source reads it:
`changes` and `lastInsertRowid`. -/
structure StmtResult where
  changes : Nat
  lastInsertRowid : Nat
deriving DecidableEq

/-- The staging database: the `stops` table as an ordered list of
`(rowid, row)` pairs, the `stops_rtree` table (`none` when the virtual
table was not created), and the next rowid to assign. -/
structure Db where
  stops : List (Nat × StopRow)
  rtree : Option (List RtreeEntry)
  nextRowid : Nat
deriving DecidableEq

/-- A freshly created staging database; the rtree table exists exactly
when its creation succeeded in `setupSchema`. -/
def emptyDb (rtreeEnabled : Bool) : Db :=
  { stops := [], rtree := if rtreeEnabled then some [] else none, nextRowid := 1 }

/-- `INSERT OR IGNORE INTO stops`: a duplicate primary key is a no-op
with `changes = 0`; otherwise the row is appended with a fresh rowid and
`changes = 1`, `lastInsertRowid` being that rowid. -/
def insertStopRun (db : Db) (r : StopRow) : Db × StmtResult :=
  if db.stops.any (fun p => p.2.id == r.id) then
    (db, { changes := 0, lastInsertRowid := 0 })
  else
    ({ db with
        stops := db.stops ++ [(db.nextRowid, r)]
        nextRowid := db.nextRowid + 1 },
      { changes := 1, lastInsertRowid := db.nextRowid })

/-- `INSERT OR REPLACE INTO stops_rtree`: replaces any entry with the same
key, appending the new entry. -/
def insertRtreeRun (db : Db) (e : RtreeEntry) : Db :=
  match db.rtree with
  | none => db
  | some l => { db with rtree := some (l.filter (fun x => x.id != e.id) ++ [e]) }

/-- The per-row body of the `insertBatch` transaction: run the stop insert
and, when the rtree statement exists and the insert actually added a row,
insert the degenerate rectangle keyed by the assigned rowid.  (The source
also checks `Number.isFinite` on the rowid, which always holds for the
rowids this model assigns.) -/
def loadRow (db : Db) (r : StopRow) : Db :=
  let (db1, res) := insertStopRun db r
  if db1.rtree.isSome && res.changes == 1 then
    insertRtreeRun db1
      { id := res.lastInsertRowid, minX := r.lng, maxX := r.lng, minY := r.lat, maxY := r.lat }
  else db1

/-- `insertBatch`, the transaction over one batch of rows. -/
def insertBatch (db : Db) (rows : List StopRow) : Db :=
  rows.foldl loadRow db

/-- Attempting the `CREATE VIRTUAL TABLE ... USING rtree` DDL: fails on an
engine build without the rtree extension. -/
def attemptCreateRtree (rtreeSupported : Bool) : Except String Unit :=
  if rtreeSupported then Except.ok () else Except.error "SchemaCapabilityError"

/-- The rtree part of `setupSchema`: the try/catch around the virtual
table creation, yielding the `rtreeEnabled` flag.  The plain tables and
indexes are created unconditionally before this point. -/
def setupSchema (rtreeSupported useRtree : Bool) : Bool :=
  if useRtree then
    match attemptCreateRtree rtreeSupported with
    | Except.ok _ => true
    | Except.error _ => false
  else false

/-- Batch size of the loader. -/
def BATCH_SIZE : Nat := 2000

/-- Mutable state of the streaming load loop of `buildStopsSqlite`. -/
structure LoadState where
  db : Db
  batch : List StopRow
  totalRows : Nat
  keptRows : Nat
  skippedRows : Nat
  minLat : JSNum
  maxLat : JSNum
  minLng : JSNum
  maxLng : JSNum

/-- One iteration of the `for await` loop: count the record, map it,
either count a skip or update the bounding box, push the kept row onto the
batch and flush a full batch. -/
def stepRecord (atco : Option String) (st : LoadState) (raw : RawRec) : LoadState :=
  let st := { st with totalRows := st.totalRows + 1 }
  match mapRow raw atco with
  | none => { st with skippedRows := st.skippedRows + 1 }
  | some r =>
    let st :=
      { st with
          keptRows := st.keptRows + 1
          minLat := jsMin st.minLat (JSNum.finite r.lat)
          maxLat := jsMax st.maxLat (JSNum.finite r.lat)
          minLng := jsMin st.minLng (JSNum.finite r.lng)
          maxLng := jsMax st.maxLng (JSNum.finite r.lng) }
    let b := st.batch ++ [r]
    if BATCH_SIZE ≤ b.length then
      { st with db := insertBatch st.db b, batch := [] }
    else
      { st with batch := b }

/-- The flush of the final partial batch after the stream ends. -/
def finishLoad (st : LoadState) : LoadState :=
  if 0 < st.batch.length then
    { st with db := insertBatch st.db st.batch, batch := [] }
  else st

/-- Initial load state over a given staging database. -/
def initLoadState (db : Db) : LoadState :=
  { db := db, batch := [], totalRows := 0, keptRows := 0, skippedRows := 0,
    minLat := JSNum.posInf, maxLat := JSNum.negInf,
    minLng := JSNum.posInf, maxLng := JSNum.negInf }

/-- Warning text emitted when the rtree was requested but unavailable. -/
def rtreeWarning : String := "RTree module unavailable; using lat/lng indexes only."

/-- Outcome of the pure core of `buildStopsSqlite`: the published tables,
the run statistics, and the warnings emitted at the end of the run. -/
structure BuildResult where
  stops : List (Nat × StopRow)
  rtreeTable : Option (List RtreeEntry)
  totalRows : Nat
  keptRows : Nat
  skippedRows : Nat
  minLat : JSNum
  maxLat : JSNum
  minLng : JSNum
  maxLng : JSNum
  warnings : List String

/-- The pure core of `buildStopsSqlite`: schema setup (with the rtree
capability probe), the streaming batched load over the record stream, and
the final report.  `records` is the parsed CSV stream in order. -/
def buildStopsSqlite (records : List RawRec) (atco : Option String)
    (useRtree rtreeSupported : Bool) : BuildResult :=
  let rtreeEnabled := setupSchema rtreeSupported useRtree
  let st0 := initLoadState (emptyDb rtreeEnabled)
  let st1 := records.foldl (stepRecord atco) st0
  let st2 := finishLoad st1
  { stops := st2.db.stops
    rtreeTable := st2.db.rtree
    totalRows := st2.totalRows
    keptRows := st2.keptRows
    skippedRows := st2.skippedRows
    minLat := st2.minLat
    maxLat := st2.maxLat
    minLng := st2.minLng
    maxLng := st2.maxLng
    warnings := if useRtree && !rtreeEnabled then [rtreeWarning] else [] }

/-- Geographic sanity bound of the validator. -/
def UK_LAT_MIN : ℚ := 49

/-- Geographic sanity bound of the validator. -/
def UK_LAT_MAX : ℚ := 123 / 2

/-- Geographic sanity bound of the validator. -/
def UK_LNG_MIN : ℚ := -17 / 2

/-- Geographic sanity bound of the validator. -/
def UK_LNG_MAX : ℚ := 5 / 2

/-- The count reported by the validator: `SELECT COUNT(*) FROM stops`. -/
def validatorCountQuery (stops : List StopRow) : Nat :=
  stops.length

/-- Successful validator report: row count and coordinate ranges. -/
structure ValidatorReport where
  count : Nat
  minLat : ℚ
  maxLat : ℚ
  minLng : ℚ
  maxLng : ℚ
deriving DecidableEq

/-- `validateStops` on the published `stops` table: assert a nonzero row
count, then assert the min/max latitude and longitude ranges against the
fixed bounds; on success report count and ranges.  (The file- and
table-existence assertions hold by construction for a table produced by
this pipeline.) -/
def validateStops (stops : List StopRow) : Except String ValidatorReport :=
  match stops with
  | [] => Except.error "Stops table is empty"
  | s :: rest =>
    let minLat := rest.foldl (fun a r => min a r.lat) s.lat
    let maxLat := rest.foldl (fun a r => max a r.lat) s.lat
    let minLng := rest.foldl (fun a r => min a r.lng) s.lng
    let maxLng := rest.foldl (fun a r => max a r.lng) s.lng
    if UK_LAT_MIN ≤ minLat ∧ maxLat ≤ UK_LAT_MAX then
      if UK_LNG_MIN ≤ minLng ∧ maxLng ≤ UK_LNG_MAX then
        Except.ok
          { count := validatorCountQuery stops,
            minLat := minLat, maxLat := maxLat, minLng := minLng, maxLng := maxLng }
      else Except.error "Longitude range out of bounds"
    else Except.error "Latitude range out of bounds"

/-- Spec-side characterization (for the dedup claims): keep the first row
for each id not already seen, drop later rows with the same id. -/
def specFirstWins (seen : List String) : List StopRow → List StopRow
  | [] => []
  | r :: rest =>
    if r.id ∈ seen then specFirstWins seen rest
    else r :: specFirstWins (r.id :: seen) rest

/-- Spec-side notion of case-and-spacing equivalence of two header names
(used to state the header-tolerance claim). -/
def caseSpacingEq (a b : String) : Bool :=
  (a.data.filter (fun c => !c.isWhitespace)).map Char.toLower
    == (b.data.filter (fun c => !c.isWhitespace)).map Char.toLower

/-- The degenerate rectangle the loader stores for an inserted stop row. -/
def degenerateEntry (p : Nat × StopRow) : RtreeEntry :=
  { id := p.1, minX := p.2.lng, maxX := p.2.lng, minY := p.2.lat, maxY := p.2.lat }

/-! ## Filesystem effect model of `buildStopsSqlite`

The publish and cleanup behaviour is modelled as a sequence of abstract
filesystem steps over an `FsState`, with an optional injected failure.
Datasets are abstract `Nat` version stamps; `dest` holds the content of
the file at the final destination path. -/

/-- Abstract filesystem state observed by the pipeline. -/
structure FsState where
  dest : Option Nat
  destWal : Bool
  destShm : Bool
  staging : Option Nat
  stagingWal : Bool
  stagingShm : Bool
  csvDir : Bool
  dbDir : Bool
deriving DecidableEq

/-- The effectful steps of `buildStopsSqlite`, in program order. -/
inductive BuildStep where
  | mkCsvTempDir
  | acquireCsv
  | mkDbTempDir
  | openAndSetup
  | loadRows
  | optimizeVacuum
  | closeDb
  | rmCsvDir
  | rmStagingSidecars
  | rmDest
  | renameStagingToDest
  | rmDbDir
  | rmDestSidecars
deriving DecidableEq

/-- Effect of one step on the filesystem state. -/
def applyStep (s : BuildStep) (fs : FsState) : FsState :=
  match s with
  | .mkCsvTempDir => { fs with csvDir := true }
  | .acquireCsv => fs
  | .mkDbTempDir => { fs with dbDir := true }
  | .openAndSetup => { fs with staging := some 0 }
  | .loadRows => { fs with staging := (fs.staging).map (fun _ => 1) }
  | .optimizeVacuum => fs
  | .closeDb => fs
  | .rmCsvDir => { fs with csvDir := false }
  | .rmStagingSidecars => { fs with stagingWal := false, stagingShm := false }
  | .rmDest => { fs with dest := none }
  | .renameStagingToDest => { fs with dest := fs.staging, staging := none }
  | .rmDbDir => { fs with dbDir := false, staging := none }
  | .rmDestSidecars => { fs with destWal := false, destShm := false }

/-- Steps before the try block: acquisition, staging setup, schema. -/
def stepsPre : List BuildStep :=
  [.mkCsvTempDir, .acquireCsv, .mkDbTempDir, .openAndSetup]

/-- Steps inside the try block: streaming load and finalization. -/
def stepsTry : List BuildStep := [.loadRows, .optimizeVacuum]

/-- Steps of the finally block: close the handle, remove the download
directory. -/
def stepsFinally : List BuildStep := [.closeDb, .rmCsvDir]

/-- Steps after the try/finally: sidecar cleanup, destination removal,
rename, staging directory removal, destination sidecar cleanup. -/
def stepsPost : List BuildStep :=
  [.rmStagingSidecars, .rmDest, .renameStagingToDest, .rmDbDir, .rmDestSidecars]

/-- All steps of a run, in program order. -/
def allBuildSteps : List BuildStep :=
  stepsPre ++ stepsTry ++ stepsFinally ++ stepsPost

/-- Run a step list with an injected failure: the failing step has no
effect and aborts the sequence. -/
def runSeq (failAt : Option BuildStep) : List BuildStep → FsState → FsState × Bool
  | [], fs => (fs, true)
  | s :: rest, fs =>
    if failAt = some s then (fs, false)
    else runSeq failAt rest (applyStep s fs)

/-- The effect model of a `buildStopsSqlite` run: the pre steps, the try
block whose failure still runs the finally block before propagating, and
the post steps which run only when everything so far succeeded. -/
def buildStopsFsRun (failAt : Option BuildStep) (fs : FsState) : FsState × Bool :=
  match runSeq failAt stepsPre fs with
  | (fs1, false) => (fs1, false)
  | (fs1, true) =>
    let (fs2, okTry) := runSeq failAt stepsTry fs1
    let (fs3, okFin) := runSeq failAt stepsFinally fs2
    if okTry then
      if okFin then runSeq failAt stepsPost fs3
      else (fs3, false)
    else (fs3, false)

/-- A concrete initial filesystem: a previously published dataset at the
destination and no temporary state. -/
def fs0 : FsState :=
  { dest := some 0, destWal := false, destShm := false,
    staging := none, stagingWal := false, stagingShm := false,
    csvDir := false, dbDir := false }

/-- The `stops` rows the loader would hold after flushing the pending
batch of a load state. -/
def flushDb (st : LoadState) : Db :=
  insertBatch st.db st.batch

/-- Rows tagged with consecutive rowids starting at `n`. -/
def withRowids (n : Nat) : List StopRow → List (Nat × StopRow)
  | [] => []
  | r :: rest => (n, r) :: withRowids (n + 1) rest

/-! ## Lemmas about the loader -/

theorem insertBatch_append (db : Db) (xs ys : List StopRow) :
    insertBatch db (xs ++ ys) = insertBatch (insertBatch db xs) ys := by
  simp [insertBatch, List.foldl_append]

theorem insertRtreeRun_stops (db : Db) (e : RtreeEntry) :
    (insertRtreeRun db e).stops = db.stops := by
  cases h : db.rtree <;> simp [insertRtreeRun, h]

theorem insertRtreeRun_nextRowid (db : Db) (e : RtreeEntry) :
    (insertRtreeRun db e).nextRowid = db.nextRowid := by
  cases h : db.rtree <;> simp [insertRtreeRun, h]

theorem loadRow_of_dup (db : Db) (r : StopRow)
    (h : (db.stops.any fun p => p.2.id == r.id) = true) :
    loadRow db r = db := by
  simp [loadRow, insertStopRun, h]

theorem loadRow_of_new_stops (db : Db) (r : StopRow)
    (h : ¬ (db.stops.any fun p => p.2.id == r.id) = true) :
    (loadRow db r).stops = db.stops ++ [(db.nextRowid, r)] := by
  simp only [loadRow, insertStopRun, if_neg h]
  split
  · exact insertRtreeRun_stops _ _
  · rfl

theorem loadRow_of_new_nextRowid (db : Db) (r : StopRow)
    (h : ¬ (db.stops.any fun p => p.2.id == r.id) = true) :
    (loadRow db r).nextRowid = db.nextRowid + 1 := by
  simp only [loadRow, insertStopRun, if_neg h]
  split
  · exact insertRtreeRun_nextRowid _ _
  · rfl

theorem hasId_iff (db : Db) (i : String) :
    ((db.stops.any fun p => p.2.id == i) = true)
      ↔ i ∈ db.stops.map (fun p => p.2.id) := by
  simp [List.any_eq_true, List.mem_map]

theorem flushDb_stepRecord (atco : Option String) (st : LoadState) (raw : RawRec) :
    flushDb (stepRecord atco st raw)
      = match mapRow raw atco with
        | none => flushDb st
        | some r => loadRow (flushDb st) r := by
  unfold stepRecord
  cases h : mapRow raw atco with
  | none => simp [flushDb]
  | some r =>
    simp only [flushDb, h]
    split <;> simp [insertBatch_append, insertBatch]

theorem flushDb_foldl (atco : Option String) (recs : List RawRec) :
    ∀ st : LoadState,
      flushDb (recs.foldl (stepRecord atco) st)
        = insertBatch (flushDb st) (keptOf recs atco) := by
  induction recs with
  | nil => intro st; simp [keptOf, insertBatch]
  | cons raw rest ih =>
    intro st
    simp only [List.foldl_cons]
    rw [ih]
    cases h : mapRow raw atco with
    | none =>
      simp [keptOf, List.filterMap_cons, h, flushDb_stepRecord, insertBatch]
    | some r =>
      have hs : flushDb (stepRecord atco st raw) = loadRow (flushDb st) r := by
        rw [flushDb_stepRecord]; simp [h]
      rw [hs]
      simp [keptOf, List.filterMap_cons, h, insertBatch]

theorem finishLoad_db (st : LoadState) : (finishLoad st).db = flushDb st := by
  unfold finishLoad flushDb
  by_cases h : 0 < st.batch.length
  · simp [h]
  · have hb : st.batch = [] := by
      cases hc : st.batch with
      | nil => rfl
      | cons x xs => rw [hc] at h; simp at h
    simp [h, hb, insertBatch]

theorem finishLoad_keptRows (st : LoadState) : (finishLoad st).keptRows = st.keptRows := by
  unfold finishLoad
  by_cases h : 0 < st.batch.length <;> simp [h]

theorem finishLoad_totalRows (st : LoadState) : (finishLoad st).totalRows = st.totalRows := by
  unfold finishLoad
  by_cases h : 0 < st.batch.length <;> simp [h]

theorem foldl_stepRecord_counts (atco : Option String) (recs : List RawRec) :
    ∀ st : LoadState,
      (recs.foldl (stepRecord atco) st).totalRows = st.totalRows + recs.length ∧
      (recs.foldl (stepRecord atco) st).keptRows
        = st.keptRows + (keptOf recs atco).length := by
  induction recs with
  | nil => intro st; simp [keptOf]
  | cons raw rest ih =>
    intro st
    simp only [List.foldl_cons]
    obtain ⟨ht, hk⟩ := ih (stepRecord atco st raw)
    cases h : mapRow raw atco with
    | none =>
      have hst : (stepRecord atco st raw).totalRows = st.totalRows + 1 ∧
          (stepRecord atco st raw).keptRows = st.keptRows := by
        unfold stepRecord; simp [h]
      refine ⟨?_, ?_⟩
      · rw [ht, hst.1]; simp [Nat.add_assoc, Nat.add_comm 1]
      · rw [hk, hst.2]; simp [keptOf, List.filterMap_cons, h]
    | some r =>
      have hst : (stepRecord atco st raw).totalRows = st.totalRows + 1 ∧
          (stepRecord atco st raw).keptRows = st.keptRows + 1 := by
        unfold stepRecord
        simp only [h]
        split <;> simp
      refine ⟨?_, ?_⟩
      · rw [ht, hst.1]; simp [Nat.add_assoc, Nat.add_comm 1]
      · rw [hk, hst.2]
        simp [keptOf, List.filterMap_cons, h, Nat.add_assoc, Nat.add_comm 1]

/-! ## Lemmas about first-occurrence dedup -/

theorem specFirstWins_congr (L : List StopRow) :
    ∀ s1 s2 : List String, (∀ x, x ∈ s1 ↔ x ∈ s2) →
      specFirstWins s1 L = specFirstWins s2 L := by
  induction L with
  | nil => intro s1 s2 _; rfl
  | cons r rest ih =>
    intro s1 s2 h
    simp only [specFirstWins]
    by_cases hr : r.id ∈ s1
    · rw [if_pos hr, if_pos ((h r.id).mp hr), ih s1 s2 h]
    · rw [if_neg hr, if_neg (fun hc => hr ((h r.id).mpr hc)),
        ih (r.id :: s1) (r.id :: s2) ?_]
      intro x
      simp [h x]

theorem withRowids_map_snd (L : List StopRow) :
    ∀ n, (withRowids n L).map Prod.snd = L := by
  induction L with
  | nil => intro n; rfl
  | cons r rest ih => intro n; simp [withRowids, ih]

theorem withRowids_length (L : List StopRow) :
    ∀ n, (withRowids n L).length = L.length := by
  induction L with
  | nil => intro n; rfl
  | cons r rest ih => intro n; simp [withRowids, ih]

theorem insertBatch_stops (L : List StopRow) :
    ∀ db : Db,
      (insertBatch db L).stops
        = db.stops ++ withRowids db.nextRowid
            (specFirstWins (db.stops.map fun p => p.2.id) L) ∧
      (insertBatch db L).nextRowid
        = db.nextRowid
            + (specFirstWins (db.stops.map fun p => p.2.id) L).length := by
  induction L with
  | nil => intro db; simp [insertBatch, specFirstWins, withRowids]
  | cons r rest ih =>
    intro db
    have hstep : insertBatch db (r :: rest) = insertBatch (loadRow db r) rest := rfl
    rw [hstep]
    by_cases h : (db.stops.any fun p => p.2.id == r.id) = true
    · have hmem : r.id ∈ db.stops.map (fun p => p.2.id) := (hasId_iff db r.id).mp h
      rw [loadRow_of_dup db r h]
      have := ih db
      simpa [specFirstWins, hmem] using this
    · have hmem : r.id ∉ db.stops.map (fun p => p.2.id) :=
        fun hc => h ((hasId_iff db r.id).mpr hc)
      obtain ⟨ihs, ihn⟩ := ih (loadRow db r)
      rw [loadRow_of_new_stops db r h, loadRow_of_new_nextRowid db r h] at ihs ihn
      have hseen : ∀ x, x ∈ (db.stops ++ [(db.nextRowid, r)]).map (fun p => p.2.id)
          ↔ x ∈ r.id :: db.stops.map (fun p => p.2.id) := by
        intro x
        simp only [List.map_append, List.mem_append, List.mem_cons, List.map_cons,
          List.map_nil, List.mem_singleton]
        tauto
      rw [specFirstWins_congr rest _ _ hseen] at ihs ihn
      constructor
      · rw [ihs]
        simp [specFirstWins, hmem, withRowids]
      · rw [ihn]
        simp only [specFirstWins, if_neg hmem, List.length_cons]
        omega

theorem specFirstWins_not_seen (L : List StopRow) :
    ∀ (seen : List String) (x : StopRow),
      x ∈ specFirstWins seen L → x.id ∉ seen := by
  induction L with
  | nil => intro seen x hx; simp [specFirstWins] at hx
  | cons r rest ih =>
    intro seen x hx
    simp only [specFirstWins] at hx
    by_cases hr : r.id ∈ seen
    · rw [if_pos hr] at hx
      exact ih seen x hx
    · rw [if_neg hr] at hx
      rcases List.mem_cons.mp hx with hx | hx
      · rw [hx]; exact hr
      · intro hc
        exact ih (r.id :: seen) x hx (List.mem_cons_of_mem _ hc)

theorem specFirstWins_id_nodup (L : List StopRow) :
    ∀ seen : List String, ((specFirstWins seen L).map (fun r => r.id)).Nodup := by
  induction L with
  | nil => intro seen; simp [specFirstWins]
  | cons r rest ih =>
    intro seen
    simp only [specFirstWins]
    by_cases hr : r.id ∈ seen
    · rw [if_pos hr]; exact ih seen
    · rw [if_neg hr]
      simp only [List.map_cons, List.nodup_cons]
      refine ⟨?_, ih (r.id :: seen)⟩
      intro hc
      obtain ⟨x, hx, hxid⟩ := List.mem_map.mp hc
      exact specFirstWins_not_seen rest (r.id :: seen) x hx (hxid ▸ List.mem_cons_self _ _)

theorem specFirstWins_subset (L : List StopRow) :
    ∀ (seen : List String) (x : StopRow), x ∈ specFirstWins seen L → x ∈ L := by
  induction L with
  | nil => intro seen x hx; simp [specFirstWins] at hx
  | cons r rest ih =>
    intro seen x hx
    simp only [specFirstWins] at hx
    by_cases hr : r.id ∈ seen
    · rw [if_pos hr] at hx
      exact List.mem_cons_of_mem _ (ih seen x hx)
    · rw [if_neg hr] at hx
      rcases List.mem_cons.mp hx with hx | hx
      · rw [hx]; exact List.mem_cons_self _ _
      · exact List.mem_cons_of_mem _ (ih (r.id :: seen) x hx)

theorem specFirstWins_id_mem (L : List StopRow) :
    ∀ (seen : List String) (i : String),
      i ∈ (specFirstWins seen L).map (fun r => r.id)
        ↔ i ∈ L.map (fun r => r.id) ∧ i ∉ seen := by
  induction L with
  | nil => intro seen i; simp [specFirstWins]
  | cons r rest ih =>
    intro seen i
    simp only [specFirstWins]
    by_cases hr : r.id ∈ seen
    · rw [if_pos hr]
      rw [ih seen i]
      simp only [List.map_cons, List.mem_cons]
      constructor
      · rintro ⟨hm, hn⟩; exact ⟨Or.inr hm, hn⟩
      · rintro ⟨hm, hn⟩
        rcases hm with hm | hm
        · exact absurd (hm ▸ hr) hn
        · exact ⟨hm, hn⟩
    · rw [if_neg hr]
      simp only [List.map_cons, List.mem_cons, ih (r.id :: seen) i, List.mem_cons]
      constructor
      · rintro (he | ⟨hm, hn⟩)
        · exact ⟨Or.inl he, he ▸ hr⟩
        · exact ⟨Or.inr hm, fun hc => hn (Or.inr hc)⟩
      · rintro ⟨hm, hn⟩
        rcases hm with hm | hm
        · exact Or.inl hm
        · by_cases he : i = r.id
          · exact Or.inl he
          · exact Or.inr ⟨hm, fun hc => (hc.elim he hn)⟩

theorem specFirstWins_eq_self (L : List StopRow) :
    ∀ seen : List String, (L.map (fun r => r.id)).Nodup →
      (∀ x ∈ L, x.id ∉ seen) → specFirstWins seen L = L := by
  induction L with
  | nil => intro seen _ _; rfl
  | cons r rest ih =>
    intro seen hnd hout
    simp only [specFirstWins]
    rw [if_neg (hout r (List.mem_cons_self _ _))]
    congr 1
    apply ih (r.id :: seen) (List.nodup_cons.mp (by simpa using hnd)).2
    intro x hx hc
    rcases List.mem_cons.mp hc with hc | hc
    · have : r.id ∉ rest.map (fun y => y.id) := (List.nodup_cons.mp (by simpa using hnd)).1
      exact this (hc ▸ List.mem_map_of_mem _ hx)
    · exact hout x (List.mem_cons_of_mem _ hx) hc

/-! ## Lemmas about the rtree table -/

theorem insertBatch_rtree_none (L : List StopRow) :
    ∀ db : Db, db.rtree = none → (insertBatch db L).rtree = none := by
  induction L with
  | nil => intro db h; simpa [insertBatch] using h
  | cons r rest ih =>
    intro db h
    have hstep : insertBatch db (r :: rest) = insertBatch (loadRow db r) rest := rfl
    rw [hstep]
    apply ih
    unfold loadRow
    by_cases hd : (db.stops.any fun p => p.2.id == r.id) = true
    · simp [insertStopRun, hd, h]
    · simp [insertStopRun, hd, h, insertRtreeRun]

theorem insertBatch_rtree_mirror (L : List StopRow) :
    ∀ db : Db,
      db.rtree = some (db.stops.map degenerateEntry) →
      (∀ p ∈ db.stops, p.1 < db.nextRowid) →
      (insertBatch db L).rtree
          = some ((insertBatch db L).stops.map degenerateEntry) ∧
        ∀ p ∈ (insertBatch db L).stops, p.1 < (insertBatch db L).nextRowid := by
  induction L with
  | nil => intro db h hb; exact ⟨by simpa [insertBatch] using h, by simpa [insertBatch] using hb⟩
  | cons r rest ih =>
    intro db h hb
    have hstep : insertBatch db (r :: rest) = insertBatch (loadRow db r) rest := rfl
    rw [hstep]
    by_cases hd : (db.stops.any fun p => p.2.id == r.id) = true
    · rw [loadRow_of_dup db r hd]
      exact ih db h hb
    · apply ih
      · have hstops : (loadRow db r).stops = db.stops ++ [(db.nextRowid, r)] :=
          loadRow_of_new_stops db r hd
        have hfilter : (db.stops.map degenerateEntry).filter
            (fun x => x.id != db.nextRowid) = db.stops.map degenerateEntry := by
          apply List.filter_eq_self.mpr
          intro e he
          obtain ⟨p, hp, hpe⟩ := List.mem_map.mp he
          have : e.id = p.1 := by rw [← hpe]; rfl
          have hlt := hb p hp
          simp only [bne_iff_ne, ne_eq, this]
          omega
        unfold loadRow
        simp only [insertStopRun, if_neg hd]
        simp only [insertRtreeRun, h, Option.isSome_some, beq_self_eq_true,
          Bool.and_self, if_pos]
        simp [hfilter, hstops, degenerateEntry]
      · intro p hp
        rw [loadRow_of_new_stops db r hd] at hp
        rw [loadRow_of_new_nextRowid db r hd]
        rcases List.mem_append.mp hp with hp | hp
        · have := hb p hp; omega
        · simp only [List.mem_singleton] at hp
          rw [hp]
          simp

/-! ## Characterizations of the full run -/

theorem buildStops_db (records : List RawRec) (atco : Option String) (u s : Bool) :
    (finishLoad (records.foldl (stepRecord atco)
        (initLoadState (emptyDb (setupSchema s u))))).db
      = insertBatch (emptyDb (setupSchema s u)) (keptOf records atco) := by
  rw [finishLoad_db, flushDb_foldl]
  simp [flushDb, initLoadState, insertBatch]

theorem buildStops_stops_char (records : List RawRec) (atco : Option String) (u s : Bool) :
    (buildStopsSqlite records atco u s).stops
      = withRowids 1 (specFirstWins [] (keptOf records atco)) := by
  have h : (buildStopsSqlite records atco u s).stops
      = (finishLoad (records.foldl (stepRecord atco)
          (initLoadState (emptyDb (setupSchema s u))))).db.stops := rfl
  rw [h, buildStops_db]
  have := (insertBatch_stops (keptOf records atco) (emptyDb (setupSchema s u))).1
  simpa [emptyDb] using this

theorem buildStops_keptRows (records : List RawRec) (atco : Option String) (u s : Bool) :
    (buildStopsSqlite records atco u s).keptRows = (keptOf records atco).length := by
  have h : (buildStopsSqlite records atco u s).keptRows
      = (finishLoad (records.foldl (stepRecord atco)
          (initLoadState (emptyDb (setupSchema s u))))).keptRows := rfl
  rw [h, finishLoad_keptRows]
  have := (foldl_stepRecord_counts atco records (initLoadState (emptyDb (setupSchema s u)))).2
  simpa [initLoadState] using this

theorem buildStops_totalRows (records : List RawRec) (atco : Option String) (u s : Bool) :
    (buildStopsSqlite records atco u s).totalRows = records.length := by
  have h : (buildStopsSqlite records atco u s).totalRows
      = (finishLoad (records.foldl (stepRecord atco)
          (initLoadState (emptyDb (setupSchema s u))))).totalRows := rfl
  rw [h, finishLoad_totalRows]
  have := (foldl_stepRecord_counts atco records (initLoadState (emptyDb (setupSchema s u)))).1
  simpa [initLoadState] using this

theorem buildStops_rtree_db (records : List RawRec) (atco : Option String) (u s : Bool) :
    (buildStopsSqlite records atco u s).rtreeTable
      = (insertBatch (emptyDb (setupSchema s u)) (keptOf records atco)).rtree := by
  have h : (buildStopsSqlite records atco u s).rtreeTable
      = (finishLoad (records.foldl (stepRecord atco)
          (initLoadState (emptyDb (setupSchema s u))))).db.rtree := rfl
  rw [h, buildStops_db]

theorem buildStops_warnings (records : List RawRec) (atco : Option String) (u s : Bool) :
    (buildStopsSqlite records atco u s).warnings
      = if u && !(setupSchema s u) then [rtreeWarning] else [] := rfl

/-! ## Characterizations of the row transformer -/

theorem parseNumber_eq_some (o : Option String) (q : ℚ) :
    parseNumber o = some q
      ↔ ∃ s, o = some s ∧ ¬ s = "" ∧ parseFloat s = JSNum.finite q := by
  cases o with
  | none => simp [parseNumber]
  | some s =>
    by_cases he : s = ""
    · simp [parseNumber, he]
    · rw [show parseNumber (some s)
          = (match parseFloat s with
             | JSNum.finite q => some q
             | _ => none) by simp [parseNumber, he]]
      cases hf : parseFloat s with
      | nan => simp [he, hf]
      | posInf => simp [he, hf]
      | negInf => simp [he, hf]
      | finite q' => simp [he, hf]

theorem mapRow_some_shape (row : RawRec) (atco : Option String) (s : StopRow)
    (h : mapRow row atco = some s) :
    pick row idKeys = some s.id ∧
    atcoBlocks atco s.id = false ∧
    parseNumber (pick row latKeys) = some s.lat ∧
    parseNumber (pick row lngKeys) = some s.lng ∧
    s.name = (pick row nameKeys).getD s.id := by
  unfold mapRow at h
  split at h
  · exact absurd h (by simp)
  next id hid =>
    split at h
    · exact absurd h (by simp)
    next hb =>
      split at h
      next lat lng hlat hlng =>
        simp only [Option.some.injEq] at h
        subst h
        exact ⟨hid, by simpa using hb, hlat, hlng, rfl⟩
      next => exact absurd h (by simp)

theorem mapRow_none_of_bad_coords (row : RawRec) (atco : Option String)
    (hbad : parseNumber (pick row latKeys) = none ∨ parseNumber (pick row lngKeys) = none) :
    mapRow row atco = none := by
  unfold mapRow
  split
  · rfl
  next id hid =>
    split
    · rfl
    next hb =>
      split
      next lat lng hlat hlng =>
        rcases hbad with hbad | hbad
        · rw [hlat] at hbad; exact absurd hbad (by simp)
        · rw [hlng] at hbad; exact absurd hbad (by simp)
      next => rfl

theorem pick_requires_exact_key (row : RawRec) (keys : List String) (v : String)
    (h : pick row keys = some v) :
    ∃ k, k ∈ keys ∧ ∃ raw, rowLookup row k = some raw ∧ jsTrim raw = v ∧ 0 < v.length := by
  induction keys with
  | nil => simp [pick] at h
  | cons k rest ih =>
    simp only [pick] at h
    split at h
    next raw hr =>
      split at h
      next ht =>
        have hv := Option.some.inj h
        exact ⟨k, List.mem_cons_self _ _, raw, hr, hv, hv ▸ ht⟩
      next =>
        obtain ⟨k', hk', hr'⟩ := ih h
        exact ⟨k', List.mem_cons_of_mem _ hk', hr'⟩
    next =>
      obtain ⟨k', hk', hr'⟩ := ih h
      exact ⟨k', List.mem_cons_of_mem _ hk', hr'⟩

theorem withRowids_mem_snd (L : List StopRow) :
    ∀ (n : Nat) (p : Nat × StopRow), p ∈ withRowids n L → p.2 ∈ L := by
  induction L with
  | nil => intro n p hp; simp [withRowids] at hp
  | cons r rest ih =>
    intro n p hp
    rcases List.mem_cons.mp hp with hp | hp
    · rw [hp]; exact List.mem_cons_self _ _
    · exact List.mem_cons_of_mem _ (ih (n + 1) p hp)

theorem withRowids_map_id (L : List StopRow) :
    ∀ n, (withRowids n L).map (fun p => p.2.id) = L.map (fun r => r.id) := by
  induction L with
  | nil => intro n; rfl
  | cons r rest ih => intro n; simp [withRowids, ih]

theorem validateStops_ok_count (stops : List StopRow) (rep : ValidatorReport)
    (h : validateStops stops = Except.ok rep) : rep.count = stops.length := by
  unfold validateStops at h
  split at h
  · exact absurd h (by simp)
  next s rest =>
    dsimp only at h
    split at h
    · split at h
      · have he := Except.ok.inj h
        rw [← he]
        rfl
      · exact absurd h (by simp)
    · exact absurd h (by simp)

/-! ## Concrete inputs used by counterexamples and witnesses -/

/-- A well-formed record with exact NaPTAN header casing. -/
def recA : RawRec :=
  [("ATCOCode", "370000001"), ("Latitude", "53.38"), ("Longitude", "-1.47"),
   ("CommonName", "Fargate")]

/-- A second record sharing `recA`'s identifier with different attributes. -/
def recADup : RawRec :=
  [("ATCOCode", "370000001"), ("Latitude", "53.40"), ("Longitude", "-1.45"),
   ("CommonName", "Other")]

/-- `recA` with its identifier header in a different letter case. -/
def rowCased : RawRec :=
  [("ATCOCODE", "370000001"), ("Latitude", "53.38"), ("Longitude", "-1.47")]

/-- A record with a resolvable identifier but no latitude field. -/
def recNoLat : RawRec := [("ATCOCode", "370000002"), ("Longitude", "-1.47")]

/-! ## Claim theorems -/

/-- C1 (counterexample): the claim that the rename is the only operation of
the run touching the destination path, and that readers never observe a
missing dataset, is false on the code: the `rm` of the destination
immediately before the rename touches (deletes) the destination, and a run
failing at the rename itself leaves the destination missing while a
previous dataset was published there. -/
theorem rmDest_touches_destination_before_rename :
    (¬ ∀ s ∈ allBuildSteps, s ≠ BuildStep.renameStagingToDest →
        ∀ fs : FsState, (applyStep s fs).dest = fs.dest) ∧
    (buildStopsFsRun (some BuildStep.renameStagingToDest) fs0).1.dest = none ∧
    (buildStopsFsRun (some BuildStep.renameStagingToDest) fs0).2 = false ∧
    fs0.dest = some 0 := by
  refine ⟨?_, by decide, by decide, rfl⟩
  intro hall
  have hd := hall BuildStep.rmDest (by decide) (by decide) fs0
  simp [applyStep, fs0] at hd

/-- C1 (amended): a failure at any step up to and including the removal of
the existing destination file leaves the destination unchanged, and the
only operations of the run that can touch the destination path are that
removal and the rename. -/
theorem destination_untouched_before_removal :
    (∀ s ∈ allBuildSteps, s ≠ BuildStep.rmDest → s ≠ BuildStep.renameStagingToDest →
        ∀ fs : FsState, (applyStep s fs).dest = fs.dest) ∧
    (∀ s ∈ [BuildStep.mkCsvTempDir, BuildStep.acquireCsv, BuildStep.mkDbTempDir,
            BuildStep.openAndSetup, BuildStep.loadRows, BuildStep.optimizeVacuum,
            BuildStep.closeDb, BuildStep.rmCsvDir, BuildStep.rmStagingSidecars,
            BuildStep.rmDest],
        ∀ fs : FsState, ((buildStopsFsRun (some s) fs).1).dest = fs.dest ∧
          (buildStopsFsRun (some s) fs).2 = false) := by
  constructor
  · intro s _ h1 h2 fs
    cases s <;> first
      | rfl
      | exact absurd rfl h1
      | exact absurd rfl h2
  · intro s hs fs
    fin_cases hs <;>
      exact ⟨by simp [buildStopsFsRun, runSeq, stepsPre, stepsTry, stepsFinally,
          stepsPost, applyStep],
        by simp [buildStopsFsRun, runSeq, stepsPre, stepsTry, stepsFinally,
          stepsPost, applyStep]⟩

/-- Witness for the amended C1 theorem: a concrete run failing during the
streaming load leaves the previously published destination unchanged. -/
theorem destination_untouched_before_removal_witness :
    ((buildStopsFsRun (some BuildStep.loadRows) fs0).1).dest = fs0.dest ∧
    (buildStopsFsRun (some BuildStep.loadRows) fs0).2 = false :=
  destination_untouched_before_removal.2 BuildStep.loadRows (by decide) fs0

/-- C2 (counterexample): with two kept records sharing an id, the load
phase counts both as kept while the published table holds a single row, so
the published row count does not equal the kept counter. -/
theorem kept_counter_differs_from_published_count :
    (buildStopsSqlite [recA, recADup] (some "370") true true).keptRows = 2 ∧
    (buildStopsSqlite [recA, recADup] (some "370") true true).stops.length = 1 := by
  decide

/-- C2 (amended): when the kept rows carry pairwise distinct ids, the
published row count equals the kept counter, the validator count query
reports that same number, and any successful validator report carries it. -/
theorem published_count_equals_kept_when_ids_unique
    (records : List RawRec) (atco : Option String) (u s : Bool)
    (hnodup : ((keptOf records atco).map (fun r => r.id)).Nodup) :
    (buildStopsSqlite records atco u s).stops.length
      = (buildStopsSqlite records atco u s).keptRows ∧
    validatorCountQuery ((buildStopsSqlite records atco u s).stops.map Prod.snd)
      = (buildStopsSqlite records atco u s).keptRows ∧
    ∀ rep : ValidatorReport,
      validateStops ((buildStopsSqlite records atco u s).stops.map Prod.snd)
          = Except.ok rep →
        rep.count = (buildStopsSqlite records atco u s).keptRows := by
  have hlen : (buildStopsSqlite records atco u s).stops.length
      = (keptOf records atco).length := by
    rw [buildStops_stops_char, withRowids_length,
      specFirstWins_eq_self _ _ hnodup (by simp)]
  have hkept := buildStops_keptRows records atco u s
  refine ⟨by rw [hlen, hkept], ?_, ?_⟩
  · unfold validatorCountQuery
    rw [List.length_map, hlen, hkept]
  · intro rep hrep
    rw [validateStops_ok_count _ _ hrep, List.length_map, hlen, hkept]

/-- Witness for the amended C2 theorem at a concrete single-record input. -/
theorem published_count_equals_kept_when_ids_unique_witness :
    (buildStopsSqlite [recA] (some "370") true true).stops.length
      = (buildStopsSqlite [recA] (some "370") true true).keptRows :=
  (published_count_equals_kept_when_ids_unique [recA] (some "370") true true
    (by decide)).1

/-- C3: the published table is exactly the first-occurrence dedup of the
kept row stream: its rows (in order) are `specFirstWins` of the kept rows,
its ids are pairwise distinct, and an id appears in the table iff it
appears among the kept rows. -/
theorem published_one_row_per_kept_id
    (records : List RawRec) (atco : Option String) (u s : Bool) :
    (buildStopsSqlite records atco u s).stops.map Prod.snd
      = specFirstWins [] (keptOf records atco) ∧
    ((buildStopsSqlite records atco u s).stops.map (fun p => p.2.id)).Nodup ∧
    ∀ i : String,
      i ∈ (buildStopsSqlite records atco u s).stops.map (fun p => p.2.id)
        ↔ i ∈ (keptOf records atco).map (fun r => r.id) := by
  have hchar := buildStops_stops_char records atco u s
  refine ⟨?_, ?_, ?_⟩
  · rw [hchar, withRowids_map_snd]
  · rw [hchar, withRowids_map_id]
    exact specFirstWins_id_nodup _ []
  · intro i
    rw [hchar, withRowids_map_id]
    rw [specFirstWins_id_mem (keptOf records atco) [] i]
    simp

/-- C4: a row whose latitude or longitude fails to resolve or to parse to
a finite number is skipped by the transformer regardless of other fields,
and every coordinate stored in the published table is the result of a
parse that produced a finite number. -/
theorem missing_coord_rows_skipped_and_stored_coords_finite
    (row : RawRec) (atco : Option String) (records : List RawRec) (u s : Bool)
    (_hid : (pick row idKeys).isSome = true)
    (hbad : parseNumber (pick row latKeys) = none
      ∨ parseNumber (pick row lngKeys) = none) :
    mapRow row atco = none ∧
    ∀ p ∈ (buildStopsSqlite records atco u s).stops,
      ∃ raw, raw ∈ records ∧ ∃ sLat sLng : String,
        pick raw latKeys = some sLat ∧ parseFloat sLat = JSNum.finite p.2.lat ∧
        pick raw lngKeys = some sLng ∧ parseFloat sLng = JSNum.finite p.2.lng := by
  refine ⟨mapRow_none_of_bad_coords row atco hbad, ?_⟩
  intro p hp
  rw [buildStops_stops_char] at hp
  have hk : p.2 ∈ keptOf records atco :=
    specFirstWins_subset _ [] p.2 (withRowids_mem_snd _ 1 p hp)
  obtain ⟨raw, hraw, hmap⟩ := List.mem_filterMap.mp hk
  obtain ⟨_, _, hlat, hlng, _⟩ := mapRow_some_shape raw atco p.2 hmap
  obtain ⟨sLat, hsl, _, hfl⟩ := (parseNumber_eq_some _ _).mp hlat
  obtain ⟨sLng, hsg, _, hfg⟩ := (parseNumber_eq_some _ _).mp hlng
  exact ⟨raw, hraw, sLat, sLng, hsl, hfl, hsg, hfg⟩

/-- Witness for C4: a concrete record with a resolvable id and no latitude
field is skipped. -/
theorem missing_coord_rows_skipped_witness : mapRow recNoLat none = none :=
  (missing_coord_rows_skipped_and_stored_coords_finite recNoLat none [] true true
    (by decide) (Or.inl (by decide))).1

/-- C5 (counterexample): header matching is not case-and-spacing-tolerant:
`ATCOCODE` is case-equivalent to the accepted synonyms but is not one of
them, so a record using it fails to resolve an id and is skipped, while
the identical record with exact casing is kept. -/
theorem case_variant_header_not_resolved :
    caseSpacingEq "ATCOCODE" "ATCOCode" = true ∧
    caseSpacingEq "ATCOCODE" "atcocode" = true ∧
    "ATCOCODE" ∉ idKeys ∧
    pick rowCased idKeys = none ∧
    mapRow rowCased none = none ∧
    (mapRow recA none).isSome = true := by
  decide

/-- C5 (amended): a field resolves only through a header literally equal
to one of its listed synonyms: whenever `pick` succeeds, some listed key
is present verbatim in the record with a nonempty trimmed value. -/
theorem header_resolution_is_exact_match
    (row : RawRec) (keys : List String) (v : String)
    (h : pick row keys = some v) :
    ∃ k, k ∈ keys ∧ ∃ raw, rowLookup row k = some raw ∧ jsTrim raw = v ∧
      0 < v.length :=
  pick_requires_exact_key row keys v h

/-- Witness for the amended C5 theorem at a concrete record. -/
theorem header_resolution_is_exact_match_witness :
    ∃ k, k ∈ idKeys ∧ ∃ raw, rowLookup recA k = some raw ∧
      jsTrim raw = "370000001" ∧ 0 < "370000001".length :=
  header_resolution_is_exact_match recA idKeys "370000001" (by decide)

/-- C6: the row transformer is total: every record and filter yields
either an explicit skip (`none`) or a normalized stop whose id, latitude
and longitude come from successful field resolution and parsing. -/
theorem mapRow_total_stop_or_skip (row : RawRec) (atco : Option String) :
    mapRow row atco = none ∨
    ∃ s : StopRow, mapRow row atco = some s ∧
      pick row idKeys = some s.id ∧
      parseNumber (pick row latKeys) = some s.lat ∧
      parseNumber (pick row lngKeys) = some s.lng := by
  cases h : mapRow row atco with
  | none => exact Or.inl rfl
  | some s =>
    obtain ⟨h1, _, h3, h4, _⟩ := mapRow_some_shape row atco s h
    exact Or.inr ⟨s, rfl, h1, h3, h4⟩

/-- C7 (counterexample): temporary directories are not removed on every
exit path: a run failing during the streaming load leaves the staging
database directory behind (the download directory is removed by the
finally block), and a run failing during acquisition leaves the download
directory behind. -/
theorem staging_dir_left_behind_on_failure :
    (buildStopsFsRun (some BuildStep.loadRows) fs0).2 = false ∧
    (buildStopsFsRun (some BuildStep.loadRows) fs0).1.dbDir = true ∧
    (buildStopsFsRun (some BuildStep.loadRows) fs0).1.csvDir = false ∧
    (buildStopsFsRun (some BuildStep.acquireCsv) fs0).2 = false ∧
    (buildStopsFsRun (some BuildStep.acquireCsv) fs0).1.csvDir = true ∧
    fs0.csvDir = false ∧ fs0.dbDir = false := by
  decide

/-- C7 (amended): on a successful run both temporary directories are
removed; the download directory is also removed when a failure occurs
inside the load/finalize block; but the staging directory is removed only
on success, and acquisition failures leave the download directory behind. -/
theorem temp_dirs_removed_on_success_and_load_failures (fs : FsState) :
    (buildStopsFsRun none fs).1.csvDir = false ∧
    (buildStopsFsRun none fs).1.dbDir = false ∧
    (buildStopsFsRun none fs).2 = true ∧
    (buildStopsFsRun (some BuildStep.loadRows) fs).1.csvDir = false ∧
    (buildStopsFsRun (some BuildStep.optimizeVacuum) fs).1.csvDir = false := by
  refine ⟨?_, ?_, ?_, ?_, ?_⟩ <;>
    simp [buildStopsFsRun, runSeq, stepsPre, stepsTry, stepsFinally, stepsPost,
      applyStep]

/-- C8: a failed rtree capability probe is recovered locally: the DDL
error is caught, the run completes with the same fully populated stops
table as with the capability present, the spatial-index table is absent,
and the warning is emitted. -/
theorem rtree_failure_recovered_locally
    (records : List RawRec) (atco : Option String) :
    attemptCreateRtree false = Except.error "SchemaCapabilityError" ∧
    setupSchema false true = false ∧
    (buildStopsSqlite records atco true false).stops
      = (buildStopsSqlite records atco true true).stops ∧
    (buildStopsSqlite records atco true false).rtreeTable = none ∧
    (buildStopsSqlite records atco true false).keptRows
      = (buildStopsSqlite records atco true true).keptRows ∧
    (buildStopsSqlite records atco true false).totalRows
      = (buildStopsSqlite records atco true true).totalRows ∧
    (buildStopsSqlite records atco true false).warnings = [rtreeWarning] := by
  refine ⟨rfl, rfl, ?_, ?_, ?_, ?_, rfl⟩
  · rw [buildStops_stops_char, buildStops_stops_char]
  · rw [buildStops_rtree_db]
    exact insertBatch_rtree_none _ _ rfl
  · rw [buildStops_keptRows, buildStops_keptRows]
  · rw [buildStops_totalRows, buildStops_totalRows]

/-- C9: with the spatial index enabled, the rtree table is exactly the
image of the published stops under the degenerate-rectangle map: one entry
per actually inserted row, keyed by its rowid, with min equal to max equal
to the stop's coordinate on each axis. -/
theorem rtree_entries_mirror_inserted_stops
    (records : List RawRec) (atco : Option String) :
    (buildStopsSqlite records atco true true).rtreeTable
      = some ((buildStopsSqlite records atco true true).stops.map degenerateEntry) := by
  have hst : (buildStopsSqlite records atco true true).stops
      = (insertBatch (emptyDb (setupSchema true true)) (keptOf records atco)).stops := by
    have h : (buildStopsSqlite records atco true true).stops
        = (finishLoad (records.foldl (stepRecord atco)
            (initLoadState (emptyDb (setupSchema true true))))).db.stops := rfl
    rw [h, buildStops_db]
  have hm := insertBatch_rtree_mirror (keptOf records atco)
    (emptyDb (setupSchema true true)) rfl (by intro p hp; simp [emptyDb] at hp)
  rw [buildStops_rtree_db, hst, hm.1]

/-- C10: an empty-string ATCO filter skips nothing: the transformer
behaves identically to the no-filter sentinel, because the truthiness
guard makes the empty string inert. -/
theorem empty_atco_filter_no_op (row : RawRec) :
    mapRow row (some "") = mapRow row none ∧
    ∀ id : String, atcoBlocks (some "") id = false :=
  ⟨rfl, fun _ => rfl⟩

end NaptanStops
